import Mathlib

/-!
Shallow embedding of the Keephy Entitlements service (src/src/index.js:
Express handlers plus the Mongoose `Entitlement` model) and proofs about
the behaviour of its quota, permission, audit and reporting logic.

Modelling conventions:
  * JS numbers that the service uses as counters (quotas, usage, amounts)
    are modelled as `Int` — callers may send negative amounts and the code
    performs plain `+`/`-` on them.
  * The `quotas` and `usage` subdocuments are modelled as association
    lists `List (String × Int)`; a lookup of an absent key yields `0`,
    mirroring both the schema defaults and the `|| 0` defaulting in
    `checkQuota`/`incrementUsage`.
  * `Map`-valued config fields are association lists over a small value
    type.  `addOns`, `metadata` and the timestamp bookkeeping fields are
    omitted: no claim inspects them.
  * A Mongoose document save is modelled by returning the updated record;
    the HTTP store (the MongoDB collection) is a `List Entitlement`.
-/

set_option autoImplicit false

namespace Keephy

/-- Constrained variant for the `Mixed`-typed `config` map values. -/
inductive Value where
  | num : Int → Value
  | str : String → Value
  | bool : Bool → Value
deriving DecidableEq, Repr

/-- Element of `featureSchema`: {name, enabled, config, limits}. -/
structure Feature where
  name : String
  enabled : Bool
  config : List (String × Value)
  limits : List (String × Int)
deriving DecidableEq, Repr

/-- Element of `moduleSchema`: {name, enabled, features, limits, config}. -/
structure Module where
  name : String
  enabled : Bool
  features : List Feature
  limits : List (String × Int)
  config : List (String × Value)
deriving DecidableEq, Repr

/-- Lookup in an association list with the `|| 0` defaulting used by the
model's quota/usage accessors. -/
def getQ (m : List (String × Int)) (k : String) : Int :=
  match m.find? (fun p => p.1 == k) with
  | some p => p.2
  | none => 0

/-- JS property assignment `obj[k] = v` on an association list (the
representation keeps the updated key in front; `getQ` is unchanged on the
other keys). -/
def setA (m : List (String × Int)) (k : String) (v : Int) : List (String × Int) :=
  (k, v) :: m.filter (fun p => !(p.1 == k))

/-- JS object spread `{ ...old, ...new }`: keys of `new` override `old`. -/
def mergeA (old new : List (String × Int)) : List (String × Int) :=
  new.foldl (fun acc p => setA acc p.1 p.2) old

/-- Body of `POST /entitlements` (the fields of the record the handler
constructs; schema defaults are taken as already resolved). -/
structure CreateBody where
  tenantId : String
  tenantType : String
  planId : String
  modules : List Module
  quotas : List (String × Int)
  usage : List (String × Int)
  isActive : Bool
  effectiveUntil : Option Int
deriving DecidableEq, Repr

/-- Top-level document fields an update patch (`PATCH /entitlements/:id`,
which spreads `req.body` into a `findByIdAndUpdate`) may set, other than
the `audit` array itself (carried separately in `UpdatePatch` so that the
audit payload type is not recursive).  Tenant identity fields are omitted:
renaming is guarded by the unique index and no claim concerns it. -/
structure UpdateFields where
  planId : Option String
  modules : Option (List Module)
  quotas : Option (List (String × Int))
  usage : Option (List (String × Int))
  isActive : Option Bool
  effectiveUntil : Option (Option Int)
deriving DecidableEq, Repr

/-- Body of `PATCH /entitlements/:id/modules/:moduleName`. -/
structure ModulePatch where
  enabled : Option Bool
  features : Option (List Feature)
  limits : Option (List (String × Int))
  config : Option (List (String × Value))
deriving DecidableEq, Repr

/-- Body of `PATCH /entitlements/:id/modules/:m/features/:f`. -/
structure FeaturePatch where
  enabled : Option Bool
  config : Option (List (String × Value))
  limits : Option (List (String × Int))
deriving DecidableEq, Repr

/-- The `changes` payload passed to `addAuditEntry` at each call site
(the object literal the handler builds there). -/
inductive AuditChanges where
  | createdBody (body : CreateBody)
  | updatedBody (fields : UpdateFields)
  | moduleChanges (moduleName : String) (changes : ModulePatch)
  | featureChanges (moduleName featureName : String) (changes : FeaturePatch)
  | quotaChanges (quotas : List (String × Int))
  | usageAttempt (resource : String) (amount : Int)
deriving DecidableEq, Repr

/-- Element of the `audit` array: {action, performedBy, changes, reason}
(`performedAt` is omitted: wall-clock time is not inspected by any claim). -/
structure AuditEntry where
  action : String
  performedBy : String
  changes : AuditChanges
  reason : String
deriving DecidableEq, Repr

/-- Full body of `PATCH /entitlements/:id`: the spread of `req.body` may
also set the `audit` array wholesale. -/
structure UpdatePatch where
  fields : UpdateFields
  audit : Option (List AuditEntry)
deriving DecidableEq, Repr

/-- The `entitlementSchema` document (fields relevant to the claims). -/
structure Entitlement where
  tenantId : String
  tenantType : String
  planId : String
  modules : List Module
  quotas : List (String × Int)
  usage : List (String × Int)
  isActive : Bool
  effectiveUntil : Option Int
  audit : List AuditEntry
deriving DecidableEq, Repr

/-- `entitlementSchema.methods.isModuleEnabled`. -/
def isModuleEnabled (e : Entitlement) (moduleName : String) : Bool :=
  match e.modules.find? (fun m => m.name == moduleName) with
  | some m => m.enabled
  | none => false

/-- `entitlementSchema.methods.isFeatureEnabled`:
`if (!module || !module.enabled) return false;` then
`feature ? feature.enabled : false`. -/
def isFeatureEnabled (e : Entitlement) (moduleName featureName : String) : Bool :=
  match e.modules.find? (fun m => m.name == moduleName) with
  | none => false
  | some m =>
    if !m.enabled then false
    else
      match m.features.find? (fun f => f.name == featureName) with
      | some f => f.enabled
      | none => false

/-- `entitlementSchema.methods.checkQuota`:
`(usage[resource] || 0) < (quotas[resource] || 0)`. -/
def checkQuota (e : Entitlement) (resource : String) : Bool :=
  decide (getQ e.usage resource < getQ e.quotas resource)

/-- `entitlementSchema.methods.incrementUsage`:
`this.usage[resource] = (this.usage[resource] || 0) + amount`. -/
def incrementUsage (e : Entitlement) (resource : String) (amount : Int) : Entitlement :=
  { e with usage := setA e.usage resource (getQ e.usage resource + amount) }

/-- `entitlementSchema.methods.addAuditEntry`: pushes one entry and saves. -/
def addAuditEntry (e : Entitlement) (action performedBy : String)
    (changes : AuditChanges) (reason : String) : Entitlement :=
  { e with audit := e.audit ++ [⟨action, performedBy, changes, reason⟩] }

/-- `entitlementSchema.statics.getByTenant`:
`findOne({ tenantId, tenantType, isActive: true })`. -/
def getByTenant (s : List Entitlement) (tenantId tenantType : String) : Option Entitlement :=
  s.find? (fun e => e.tenantId == tenantId && e.tenantType == tenantType && e.isActive)

/-- `entitlementSchema.statics.getExpiringSoon`: documents with
`effectiveUntil ∈ (now, now + days]` (a `null` date matches neither bound)
and `isActive: true`.  Time is counted in days, matching the
`setDate(getDate() + days)` arithmetic. -/
def getExpiringSoon (s : List Entitlement) (now days : Int) : List Entitlement :=
  s.filter (fun e =>
    (match e.effectiveUntil with
     | some u => decide (u ≤ now + days) && decide (now < u)
     | none => false) && e.isActive)

/-- Error result of `POST /entitlements`: the unique index on
`{tenantId, tenantType}` (line 501) rejects the save of a duplicate pair. -/
inductive CreateError where
  | duplicateTenant
deriving DecidableEq, Repr

/-- The document `new Entitlement({...req.body, ...})` constructs,
before any audit entry is pushed. -/
def mkEntitlement (body : CreateBody) : Entitlement :=
  { tenantId := body.tenantId
    tenantType := body.tenantType
    planId := body.planId
    modules := body.modules
    quotas := body.quotas
    usage := body.usage
    isActive := body.isActive
    effectiveUntil := body.effectiveUntil
    audit := [] }

/-- The saved document after `POST /entitlements` succeeds: the new record
with its single `created` audit entry appended. -/
def createdEntitlement (body : CreateBody) (userId : String) : Entitlement :=
  addAuditEntry (mkEntitlement body) "created" userId (AuditChanges.createdBody body) ""

/-- Handler `POST /entitlements`: `entitlement.save()` throws a duplicate
key error when another record with the same `(tenantId, tenantType)` pair
exists (the unique index); otherwise the record is inserted and the
`created` audit entry appended. -/
def createEntitlement (s : List Entitlement) (body : CreateBody) (userId : String) :
    Except CreateError Entitlement × List Entitlement :=
  if s.any (fun e => e.tenantId == body.tenantId && e.tenantType == body.tenantType) then
    (Except.error CreateError.duplicateTenant, s)
  else
    let e := createdEntitlement body userId
    (Except.ok e, s ++ [e])

/-- Handler `PATCH /entitlements/:id` on a found document:
`findByIdAndUpdate` sets each supplied top-level field (including, when the
body carries one, the `audit` array itself), then `addAuditEntry('updated',
userId, req.body)` pushes onto the resulting document. -/
def updateEntitlement (e : Entitlement) (p : UpdatePatch) (userId : String) : Entitlement :=
  let e' := { e with
    planId := p.fields.planId.getD e.planId
    modules := p.fields.modules.getD e.modules
    quotas := p.fields.quotas.getD e.quotas
    usage := p.fields.usage.getD e.usage
    isActive := p.fields.isActive.getD e.isActive
    effectiveUntil := p.fields.effectiveUntil.getD e.effectiveUntil
    audit := p.audit.getD e.audit }
  addAuditEntry e' "updated" userId (AuditChanges.updatedBody p.fields) ""

/-- Field update of one module:
`if (enabled !== undefined) ...; if (features) ...; if (limits) ...;
if (config) ...`. -/
def applyModulePatch (m : Module) (p : ModulePatch) : Module :=
  { m with
    enabled := p.enabled.getD m.enabled
    features := p.features.getD m.features
    limits := p.limits.getD m.limits
    config := p.config.getD m.config }

/-- Field update of one feature. -/
def applyFeaturePatch (f : Feature) (p : FeaturePatch) : Feature :=
  { f with
    enabled := p.enabled.getD f.enabled
    config := p.config.getD f.config
    limits := p.limits.getD f.limits }

/-- Rewrites the first module with the given name (the one `findIndex`
or `find` selects), leaving the rest untouched. -/
def patchFirstModule : List Module → String → (Module → Module) → List Module
  | [], _, _ => []
  | m :: rest, name, g =>
    if m.name == name then g m :: rest else m :: patchFirstModule rest name g

/-- Rewrites the first feature with the given name. -/
def patchFirstFeature : List Feature → String → FeaturePatch → List Feature
  | [], _, _ => []
  | f :: rest, name, p =>
    if f.name == name then applyFeaturePatch f p :: rest else f :: patchFirstFeature rest name p

/-- Handler `PATCH /entitlements/:id/modules/:moduleName` on a found
entitlement: 404 (state unchanged, no audit) when the module is absent;
otherwise the module is patched, saved, and one `updated` entry appended. -/
def setModule (e : Entitlement) (moduleName : String) (p : ModulePatch) (userId : String) :
    Entitlement :=
  if e.modules.any (fun m => m.name == moduleName) then
    let e' := { e with modules := patchFirstModule e.modules moduleName (fun m => applyModulePatch m p) }
    addAuditEntry e' "updated" userId (AuditChanges.moduleChanges moduleName p) ""
  else e

/-- Handler `PATCH /entitlements/:id/modules/:m/features/:f` on a found
entitlement: 404 (state unchanged) when the module or the feature is
absent; otherwise the feature inside the found module is patched, saved,
and one `updated` entry appended. -/
def setFeature (e : Entitlement) (moduleName featureName : String) (p : FeaturePatch)
    (userId : String) : Entitlement :=
  match e.modules.find? (fun m => m.name == moduleName) with
  | none => e
  | some m =>
    if m.features.any (fun f => f.name == featureName) then
      let g : Module → Module :=
        fun mm => { mm with features := patchFirstFeature mm.features featureName p }
      let e' := { e with modules := patchFirstModule e.modules moduleName g }
      addAuditEntry e' "updated" userId (AuditChanges.featureChanges moduleName featureName p) ""
    else e

/-- Handler `PATCH /entitlements/:id/quotas` on a found entitlement:
`entitlement.quotas = { ...entitlement.quotas, ...req.body }`, save, and
one `updated` audit entry. -/
def setQuotas (e : Entitlement) (patch : List (String × Int)) (userId : String) : Entitlement :=
  let e' := { e with quotas := mergeA e.quotas patch }
  addAuditEntry e' "updated" userId (AuditChanges.quotaChanges patch) ""

/-- The 429 payload of `POST /entitlements/:id/usage/:resource`: `{error:
'Quota exceeded', resource, quota, usage}` (the document guarantees the
six schema resources are present, so the lookups are total). -/
inductive RecordError where
  | quotaExceeded (resource : String) (quota : Int) (usage : Int)
deriving DecidableEq, Repr

/-- The success payload of `POST /entitlements/:id/usage/:resource`. -/
structure RecordSuccess where
  resource : String
  usage : Int
  quota : Int
  remaining : Int
deriving DecidableEq, Repr

/-- Handler `POST /entitlements/:id/usage/:resource` on the document its
`findById` loaded: if `checkQuota` fails, push a `quota_exceeded` audit
entry and answer 429 with the current quota and usage; otherwise
`incrementUsage(resource, amount)` and answer with the post-increment
usage and `remaining = quotas[resource] - usage[resource]`. -/
def recordUsage (e : Entitlement) (resource : String) (amount : Int) (userId : String) :
    Except RecordError RecordSuccess × Entitlement :=
  if checkQuota e resource then
    let e' := incrementUsage e resource amount
    (Except.ok
      { resource := resource
        usage := getQ e'.usage resource
        quota := getQ e'.quotas resource
        remaining := getQ e'.quotas resource - getQ e'.usage resource }, e')
  else
    let e' := addAuditEntry e "quota_exceeded" userId
      (AuditChanges.usageAttempt resource amount) ""
    (Except.error (RecordError.quotaExceeded resource (getQ e.quotas resource)
      (getQ e.usage resource)), e')

/-- Response shapes of `POST /check-permission` (the echoed `action` field
is omitted). -/
inductive PermResult where
  | noEntitlement
  | decision (hasPermission isModuleEnabledR isFeatureEnabledR : Bool)
      (quotas usage : List (String × Int))
deriving DecidableEq, Repr

/-- Handler `POST /check-permission`: looks up the tenant's active
entitlement and evaluates the module/feature hierarchy; it performs no
store write, so the store component of the result is the input store. -/
def checkPermission (s : List Entitlement) (tenantId tenantType moduleName : String)
    (feature : Option String) : PermResult × List Entitlement :=
  (match getByTenant s tenantId tenantType with
   | none => PermResult.noEntitlement
   | some e =>
     let im := isModuleEnabled e moduleName
     let fe := match feature with
       | some f => isFeatureEnabled e moduleName f
       | none => true
     PermResult.decision (im && fe) im fe e.quotas e.usage, s)

/-- One mutating request against a single (already loaded) entitlement,
as dispatched by the Express routes. -/
inductive Op where
  | update (p : UpdatePatch) (userId : String)
  | setModule (moduleName : String) (p : ModulePatch) (userId : String)
  | setFeature (moduleName featureName : String) (p : FeaturePatch) (userId : String)
  | setQuotas (patch : List (String × Int)) (userId : String)
  | recordUsage (resource : String) (amount : Int) (userId : String)
deriving DecidableEq, Repr

/-- State effect of one request on the entitlement document. -/
def applyOp (e : Entitlement) : Op → Entitlement
  | Op.update p u => updateEntitlement e p u
  | Op.setModule n p u => setModule e n p u
  | Op.setFeature mn fn p u => setFeature e mn fn p u
  | Op.setQuotas q u => setQuotas e q u
  | Op.recordUsage r a u => (recordUsage e r a u).2

/-- Sequential execution of a list of requests. -/
def runOps (e : Entitlement) : List Op → Entitlement
  | [] => e
  | op :: rest => runOps (applyOp e op) rest

/-- The audit entries one request appends (empty when the request is a 404
on a missing module/feature, or a successful usage increment, which writes
no audit entry). -/
def opEntries (e : Entitlement) : Op → List AuditEntry
  | Op.update p u => [⟨"updated", u, AuditChanges.updatedBody p.fields, ""⟩]
  | Op.setModule n p u =>
    if e.modules.any (fun m => m.name == n) then
      [⟨"updated", u, AuditChanges.moduleChanges n p, ""⟩]
    else []
  | Op.setFeature mn fn p u =>
    match e.modules.find? (fun m => m.name == mn) with
    | none => []
    | some m =>
      if m.features.any (fun f => f.name == fn) then
        [⟨"updated", u, AuditChanges.featureChanges mn fn p, ""⟩]
      else []
  | Op.setQuotas q u => [⟨"updated", u, AuditChanges.quotaChanges q, ""⟩]
  | Op.recordUsage r a u =>
    if checkQuota e r then []
    else [⟨"quota_exceeded", u, AuditChanges.usageAttempt r a, ""⟩]

/-- Audit entries appended along a run, in call order. -/
def auditTrace (e : Entitlement) : List Op → List AuditEntry
  | [] => []
  | op :: rest => opEntries e op ++ auditTrace (applyOp e op) rest

/-- Whether one request appends an audit entry in the state it runs in:
this singles out the claim's list of mutating operations (found-target
update / setModule / setFeature / setQuotas, and a rejected recordUsage). -/
def opAudits (e : Entitlement) (op : Op) : Bool :=
  !(opEntries e op).isEmpty

/-- Every request of the list audits in the state it actually runs in. -/
def mutatingTrace : Entitlement → List Op → Bool
  | _, [] => true
  | e, op :: rest => opAudits e op && mutatingTrace (applyOp e op) rest

/-- The request is not an update patch that sets the `audit` array
wholesale. -/
def opKeepsAudit (op : Op) : Bool :=
  match op with
  | Op.update p _ => p.audit.isNone
  | _ => true

/-- No update patch of the list sets the `audit` array wholesale. -/
def noAuditOverride (ops : List Op) : Bool :=
  ops.all opKeepsAudit

/-- All recorded usage counters are non-negative. -/
def usageOk (m : List (String × Int)) : Bool :=
  m.all (fun p => decide (0 ≤ p.2))

/-- The request neither records a negative amount nor patches a negative
usage counter in. -/
def nonnegOp (op : Op) : Bool :=
  match op with
  | Op.recordUsage _ a _ => decide (0 ≤ a)
  | Op.update p _ =>
    match p.fields.usage with
    | some l => usageOk l
    | none => true
  | _ => true

/-- All requests of the list satisfy `nonnegOp`. -/
def nonnegOps (ops : List Op) : Bool :=
  ops.all nonnegOp

/-- At most one entitlement per `(tenantId, tenantType)` pair, the store
invariant the unique index enforces. -/
def uniquePairs (s : List Entitlement) : Prop :=
  List.Pairwise (fun a b => ¬(a.tenantId = b.tenantId ∧ a.tenantType = b.tenantType)) s

/- Concrete inputs used by the closed theorems below. -/

/-- Entitlement with quota 10 and usage 9 on `submissions`, the state of
spec property P3. -/
def eRace : Entitlement :=
  { tenantId := "t1", tenantType := "business", planId := "pro", modules := [],
    quotas := [("submissions", 10)], usage := [("submissions", 9)],
    isActive := true, effectiveUntil := none, audit := [] }

/-- Entitlement with quota 1 on `submissions` and no recorded usage. -/
def eLowQuota : Entitlement :=
  { tenantId := "t2", tenantType := "business", planId := "pro", modules := [],
    quotas := [("submissions", 1)], usage := [], isActive := true,
    effectiveUntil := none, audit := [] }

/-- Entitlement with quota 5 and usage 5 on `submissions`: the exhausted
state of the spec's QuotaExceeded scenario. -/
def eExhausted : Entitlement :=
  { tenantId := "t3", tenantType := "business", planId := "pro", modules := [],
    quotas := [("submissions", 5)], usage := [("submissions", 5)],
    isActive := true, effectiveUntil := none, audit := [] }

/-- Entitlement with a negative recorded usage for a resource that has no
quota entry. -/
def eNegUsage : Entitlement :=
  { tenantId := "t4", tenantType := "business", planId := "pro", modules := [],
    quotas := [], usage := [("x", -1)], isActive := true,
    effectiveUntil := none, audit := [] }

/-- Entitlement with zero usage of a resource that has no quota entry. -/
def eZeroUsage : Entitlement :=
  { tenantId := "t5", tenantType := "business", planId := "pro", modules := [],
    quotas := [], usage := [("submissions", 0)], isActive := true,
    effectiveUntil := none, audit := [] }

/-- A disabled module holding an enabled feature. -/
def modAnalytics : Module :=
  { name := "analytics", enabled := false,
    features := [{ name := "x", enabled := true, config := [], limits := [] }],
    limits := [], config := [] }

/-- An enabled module holding a disabled feature (the spec's
forms/templates scenario). -/
def modForms : Module :=
  { name := "forms", enabled := true,
    features := [{ name := "templates", enabled := false, config := [], limits := [] }],
    limits := [], config := [] }

/-- Entitlement with the two modules above. -/
def eModules : Entitlement :=
  { tenantId := "t6", tenantType := "business", planId := "pro",
    modules := [modForms, modAnalytics], quotas := [], usage := [],
    isActive := true, effectiveUntil := none, audit := [] }

/-- A minimal creation body. -/
def bodyPlain : CreateBody :=
  { tenantId := "t7", tenantType := "business", planId := "pro", modules := [],
    quotas := [("submissions", 10)], usage := [("submissions", 0)],
    isActive := true, effectiveUntil := none }

/-- Update patch whose spread body replaces the whole `audit` array with
an empty one. -/
def wipeAuditPatch : UpdatePatch :=
  { fields := { planId := none, modules := none, quotas := none, usage := none,
                isActive := none, effectiveUntil := none },
    audit := some [] }

/-- A single always-auditing request. -/
def opsOneQuota : List Op :=
  [Op.setQuotas [("forms", 5)] "admin"]

/-- Two benign requests with non-negative amounts. -/
def opsNonneg : List Op :=
  [Op.recordUsage "submissions" 1 "user", Op.setQuotas [("forms", 1)] "admin"]

/-- A creation body colliding with `eRace`'s tenant pair. -/
def bodyDup : CreateBody :=
  { tenantId := "t1", tenantType := "business", planId := "basic", modules := [],
    quotas := [], usage := [], isActive := true, effectiveUntil := none }

deriving instance DecidableEq for Except

/- General lemmas about the embedded operations. -/

/-- Reading back the key just assigned returns the assigned value. -/
theorem getQ_setA_same (m : List (String × Int)) (k : String) (v : Int) :
    getQ (setA m k v) k = v := by
  simp [getQ, setA]

/-- A store whose counters are all non-negative yields non-negative
lookups (absent keys read as `0`). -/
theorem usageOk_getQ (m : List (String × Int)) (h : usageOk m = true) (k : String) :
    0 ≤ getQ m k := by
  rw [usageOk, List.all_eq_true] at h
  rw [getQ]
  cases hf : m.find? (fun p => p.1 == k) with
  | none => simp
  | some p =>
    simp only []
    have hp := h p (List.mem_of_find?_eq_some hf)
    simpa using hp

/-- Assigning a non-negative value preserves counter non-negativity. -/
theorem usageOk_setA (m : List (String × Int)) (k : String) (v : Int)
    (h : usageOk m = true) (hv : 0 ≤ v) : usageOk (setA m k v) = true := by
  rw [usageOk, List.all_eq_true] at h ⊢
  intro p hp
  rw [setA] at hp
  rcases List.mem_cons.mp hp with rfl | hp'
  · simpa using hv
  · exact h p (List.mem_filter.mp hp').1

/-- On a list whose keys are distinct, `find?` by key returns exactly the
member carrying that key. -/
theorem find_key_eq_some_iff {α : Type} (key : α → String) (l : List α) (k : String) (x : α)
    (h : (l.map key).Nodup) :
    l.find? (fun y => key y == k) = some x ↔ x ∈ l ∧ key x = k := by
  induction l with
  | nil => simp
  | cons a t ih =>
    rw [List.map_cons, List.nodup_cons] at h
    by_cases hk : key a = k
    · rw [List.find?_cons_of_pos _ (by simp [hk])]
      constructor
      · intro hx
        obtain rfl : a = x := Option.some.inj hx
        exact ⟨List.mem_cons_self a t, hk⟩
      · rintro ⟨hmem, hkey⟩
        rcases List.mem_cons.mp hmem with rfl | hmem'
        · rfl
        · exact absurd ((hk.trans hkey.symm) ▸ List.mem_map_of_mem key hmem') h.1
    · rw [List.find?_cons_of_neg _ (by simp [hk])]
      rw [ih h.2]
      constructor
      · rintro ⟨hm, hk2⟩
        exact ⟨List.mem_cons_of_mem _ hm, hk2⟩
      · rintro ⟨hm, hk2⟩
        rcases List.mem_cons.mp hm with rfl | hm'
        · exact absurd hk2 hk
        · exact ⟨hm', hk2⟩

/-- Each request only ever appends to the audit array, as long as it is
not an update patch that replaces the array wholesale. -/
theorem applyOp_audit (e : Entitlement) (op : Op) (h : opKeepsAudit op = true) :
    (applyOp e op).audit = e.audit ++ opEntries e op := by
  cases op with
  | update p u =>
    rw [opKeepsAudit] at h
    rw [Option.isNone_iff_eq_none] at h
    simp [applyOp, updateEntitlement, addAuditEntry, opEntries, h]
  | setModule n p u =>
    by_cases hm : e.modules.any (fun m => m.name == n)
    · simp [applyOp, setModule, opEntries, hm, addAuditEntry]
    · simp [applyOp, setModule, opEntries, hm]
  | setFeature mn fn p u =>
    cases hf : e.modules.find? (fun m => m.name == mn) with
    | none => simp [applyOp, setFeature, opEntries, hf]
    | some m =>
      by_cases hff : m.features.any (fun f => f.name == fn)
      · simp [applyOp, setFeature, opEntries, hf, hff, addAuditEntry]
      · simp [applyOp, setFeature, opEntries, hf, hff]
  | setQuotas q u =>
    simp [applyOp, setQuotas, addAuditEntry, opEntries]
  | recordUsage r a u =>
    by_cases hc : checkQuota e r
    · simp [applyOp, recordUsage, opEntries, hc, incrementUsage]
    · simp [applyOp, recordUsage, opEntries, hc, addAuditEntry]

/-- A request that audits appends exactly one entry. -/
theorem opEntries_length_one (e : Entitlement) (op : Op) (h : opAudits e op = true) :
    (opEntries e op).length = 1 := by
  rw [opAudits] at h
  cases op with
  | update p u => rfl
  | setModule n p u =>
    by_cases hm : e.modules.any (fun m => m.name == n)
    · simp [opEntries, hm]
    · rw [opEntries] at h
      simp [hm] at h
  | setFeature mn fn p u =>
    cases hf : e.modules.find? (fun m => m.name == mn) with
    | none =>
      rw [opEntries] at h
      simp [hf] at h
    | some m =>
      by_cases hff : m.features.any (fun f => f.name == fn)
      · simp [opEntries, hf, hff]
      · rw [opEntries] at h
        simp [hf, hff] at h
  | setQuotas q u => rfl
  | recordUsage r a u =>
    by_cases hc : checkQuota e r
    · rw [opEntries] at h
      simp [hc] at h
    · simp [opEntries, hc]

/-- Running a sequence of audit-preserving requests appends exactly its
trace to the audit array. -/
theorem runOps_audit (e : Entitlement) (ops : List Op) (h : noAuditOverride ops = true) :
    (runOps e ops).audit = e.audit ++ auditTrace e ops := by
  induction ops generalizing e with
  | nil => simp [runOps, auditTrace]
  | cons op rest ih =>
    rw [noAuditOverride, List.all_cons, Bool.and_eq_true] at h
    rw [runOps, auditTrace, ih _ h.2, applyOp_audit e op h.1, List.append_assoc]

/-- Sequential runs compose. -/
theorem runOps_append (e : Entitlement) (l1 l2 : List Op) :
    runOps e (l1 ++ l2) = runOps (runOps e l1) l2 := by
  induction l1 generalizing e with
  | nil => simp [runOps]
  | cons op rest ih => simp [runOps, ih]

/-- Audit traces compose. -/
theorem auditTrace_append (e : Entitlement) (l1 l2 : List Op) :
    auditTrace e (l1 ++ l2) = auditTrace e l1 ++ auditTrace (runOps e l1) l2 := by
  induction l1 generalizing e with
  | nil => simp [auditTrace, runOps]
  | cons op rest ih => simp [auditTrace, runOps, ih]

/-- A trace of requests that all audit has one entry per request. -/
theorem auditTrace_length (e : Entitlement) (ops : List Op) (h : mutatingTrace e ops = true) :
    (auditTrace e ops).length = ops.length := by
  induction ops generalizing e with
  | nil => rfl
  | cons op rest ih =>
    rw [mutatingTrace, Bool.and_eq_true] at h
    rw [auditTrace, List.length_append, ih _ h.2, opEntries_length_one e op h.1,
      List.length_cons, Nat.add_comm]

/-- Each request keeps the usage counters non-negative, as long as it
neither records a negative amount nor patches a negative counter in. -/
theorem applyOp_usageOk (e : Entitlement) (op : Op) (hE : usageOk e.usage = true)
    (hop : nonnegOp op = true) : usageOk (applyOp e op).usage = true := by
  cases op with
  | update p u =>
    rw [nonnegOp] at hop
    cases hu : p.fields.usage with
    | none => simpa [applyOp, updateEntitlement, addAuditEntry, hu] using hE
    | some l =>
      rw [hu] at hop
      simpa [applyOp, updateEntitlement, addAuditEntry, hu] using hop
  | setModule n p u =>
    by_cases hm : e.modules.any (fun m => m.name == n)
    · simpa [applyOp, setModule, hm, addAuditEntry] using hE
    · simpa [applyOp, setModule, hm] using hE
  | setFeature mn fn p u =>
    cases hf : e.modules.find? (fun m => m.name == mn) with
    | none => simpa [applyOp, setFeature, hf] using hE
    | some m =>
      by_cases hff : m.features.any (fun f => f.name == fn)
      · simpa [applyOp, setFeature, hf, hff, addAuditEntry] using hE
      · simpa [applyOp, setFeature, hf, hff] using hE
  | setQuotas q u =>
    simpa [applyOp, setQuotas, addAuditEntry] using hE
  | recordUsage r a u =>
    rw [nonnegOp] at hop
    by_cases hc : checkQuota e r
    · have ha : (0 : Int) ≤ a := by simpa using hop
      have hg := usageOk_getQ e.usage hE r
      simp only [applyOp, recordUsage, hc, if_pos, incrementUsage]
      exact usageOk_setA _ _ _ hE (by omega)
    · simpa [applyOp, recordUsage, hc, addAuditEntry] using hE

/- Claim theorems. -/

/-- C1: with quota 10 and usage 9, two `recordUsage(amount=1)` calls whose
`findById` reads both complete before either `save` (an interleaving the
non-atomic check-then-increment admits) BOTH succeed — each snapshot
passes `checkQuota` — and the last save leaves usage at 10.  The claim
(and spec property P3) requires exactly one success and one QuotaExceeded
failure, so the code loses the guaranteed rejection. -/
theorem c1_concurrent_record_usage_both_succeed :
    (recordUsage eRace "submissions" 1 "u1").1
        = Except.ok ⟨"submissions", 10, 10, 0⟩
    ∧ (recordUsage eRace "submissions" 1 "u2").1
        = Except.ok ⟨"submissions", 10, 10, 0⟩
    ∧ getQ ((recordUsage eRace "submissions" 1 "u2").2).usage "submissions" = 10 :=
  ⟨rfl, rfl, rfl⟩

/-- C2 counterexample: with quota 1 and no recorded usage, a positive
amount of 2 passes `checkQuota` (0 < 1) and the call succeeds reporting
`remaining = -1`, refuting the claimed non-negativity of `remaining`. -/
theorem c2_remaining_negative_cex :
    (0 : Int) < 2
    ∧ (recordUsage eLowQuota "submissions" 2 "u").1
        = Except.ok ⟨"submissions", 2, 1, -1⟩
    ∧ (RecordSuccess.mk "submissions" 2 1 (-1)).remaining < 0 := by
  decide

/-- C2 (amended): a successful `recordUsage` reports `remaining` equal to
`quotas[resource] - usage[resource]` computed after the increment, and the
post-increment usage is the prior usage plus the amount; `remaining` is
non-negative whenever the amount does not exceed the quota headroom
`quota - usage` at call time (in particular for the default amount 1). -/
theorem c2_remaining_after_increment (e : Entitlement) (r : String) (a : Int) (u : String)
    (res : RecordSuccess) (e' : Entitlement)
    (h : recordUsage e r a u = (Except.ok res, e')) :
    res.remaining = getQ e'.quotas r - getQ e'.usage r
    ∧ res.usage = getQ e.usage r + a
    ∧ (a ≤ getQ e.quotas r - getQ e.usage r → 0 ≤ res.remaining) := by
  rw [recordUsage] at h
  by_cases hc : checkQuota e r
  · rw [if_pos hc] at h
    injection h with h1 h2
    injection h1 with h1
    subst h1
    subst h2
    refine ⟨rfl, ?_, ?_⟩
    · simp [incrementUsage, getQ_setA_same]
    · intro hle
      simp only [incrementUsage, getQ_setA_same]
      omega
  · rw [if_neg hc] at h
    injection h with h1 _
    exact absurd h1 (by simp)

/-- C2 witness: quota 10, usage 9, amount 1 — the call succeeds, the
amount is within the headroom, and `remaining = 0` is non-negative. -/
theorem c2_remaining_after_increment_witness :
    recordUsage eRace "submissions" 1 "u"
        = (Except.ok ⟨"submissions", 10, 10, 0⟩, incrementUsage eRace "submissions" 1)
    ∧ (1 : Int) ≤ getQ eRace.quotas "submissions" - getQ eRace.usage "submissions"
    ∧ 0 ≤ (RecordSuccess.mk "submissions" 10 10 0).remaining :=
  ⟨by decide, by decide,
    (c2_remaining_after_increment eRace "submissions" 1 "u"
      ⟨"submissions", 10, 10, 0⟩ (incrementUsage eRace "submissions" 1)
      (by decide)).2.2 (by decide)⟩

/-- C4: on an exhausted resource (`usage[r] >= quotas[r]`, absent keys
reading as 0), `recordUsage` answers QuotaExceeded carrying the current
quota and usage, leaves the usage counters untouched, and appends exactly
one `quota_exceeded` audit entry recording the attempted resource and
amount. -/
theorem c4_quota_exceeded_rejection (e : Entitlement) (r : String) (a : Int) (u : String)
    (h : getQ e.quotas r ≤ getQ e.usage r) :
    (recordUsage e r a u).1
        = Except.error (RecordError.quotaExceeded r (getQ e.quotas r) (getQ e.usage r))
    ∧ ((recordUsage e r a u).2).usage = e.usage
    ∧ ((recordUsage e r a u).2).audit
        = e.audit ++ [⟨"quota_exceeded", u, AuditChanges.usageAttempt r a, ""⟩] := by
  have hc : checkQuota e r = false := by
    rw [checkQuota, decide_eq_false_iff_not, not_lt]
    exact h
  refine ⟨?_, ?_, ?_⟩ <;> simp [recordUsage, hc, addAuditEntry]

/-- C4 witness: the spec scenario quota 5, usage 5, amount 1. -/
theorem c4_quota_exceeded_rejection_witness :
    getQ eExhausted.quotas "submissions" ≤ getQ eExhausted.usage "submissions"
    ∧ (recordUsage eExhausted "submissions" 1 "u").1
        = Except.error (RecordError.quotaExceeded "submissions" 5 5)
    ∧ ((recordUsage eExhausted "submissions" 1 "u").2).audit
        = [⟨"quota_exceeded", "u", AuditChanges.usageAttempt "submissions" 1, ""⟩] := by
  refine ⟨by decide, ?_, ?_⟩
  · exact (c4_quota_exceeded_rejection eExhausted "submissions" 1 "u" (by decide)).1
  · exact (c4_quota_exceeded_rejection eExhausted "submissions" 1 "u" (by decide)).2.2

/-- C3: with unique module and feature names (invariant I2),
`isFeatureEnabled` is true exactly when the named module exists, is
enabled, and holds the named feature with `enabled = true`; and whenever
the named module is disabled the result is false regardless of any
feature's own flag. -/
theorem c3_is_feature_enabled_iff (e : Entitlement) (mname fname : String)
    (h1 : (e.modules.map Module.name).Nodup)
    (h2 : ∀ mo ∈ e.modules, (mo.features.map Feature.name).Nodup) :
    (isFeatureEnabled e mname fname = true
      ↔ ∃ mo, mo ∈ e.modules ∧ mo.name = mname ∧ mo.enabled = true
          ∧ ∃ fe, fe ∈ mo.features ∧ fe.name = fname ∧ fe.enabled = true)
    ∧ (∀ mo, mo ∈ e.modules → mo.name = mname → mo.enabled = false →
        isFeatureEnabled e mname fname = false) := by
  cases hfind : e.modules.find? (fun m => m.name == mname) with
  | none =>
    have hnone : ∀ mo ∈ e.modules, ¬(mo.name = mname) := by
      intro mo hmo heq
      have := List.find?_eq_none.mp hfind mo hmo
      simp [heq] at this
    constructor
    · rw [isFeatureEnabled, hfind]
      constructor
      · intro hf
        exact absurd hf (by simp)
      · rintro ⟨mo, hmo, hname, _⟩
        exact absurd hname (hnone mo hmo)
    · intro mo hmo hname _
      exact absurd hname (hnone mo hmo)
  | some mo0 =>
    obtain ⟨hmo0, hname0⟩ := (find_key_eq_some_iff Module.name e.modules mname mo0 h1).mp hfind
    have huniq : ∀ mo, mo ∈ e.modules → mo.name = mname → mo = mo0 := by
      intro mo hmo hname
      exact List.inj_on_of_nodup_map h1 hmo hmo0 (hname.trans hname0.symm)
    cases hen : mo0.enabled with
    | false =>
      have hL : isFeatureEnabled e mname fname = false := by
        simp [isFeatureEnabled, hfind, hen]
      constructor
      · rw [hL]
        constructor
        · intro hf
          exact absurd hf (by simp)
        · rintro ⟨mo, hmo, hname, henab, _⟩
          rw [huniq mo hmo hname, hen] at henab
          exact absurd henab (by simp)
      · intro mo hmo hname _
        exact hL
    | true =>
      cases hffind : mo0.features.find? (fun f => f.name == fname) with
      | none =>
        have hL : isFeatureEnabled e mname fname = false := by
          simp [isFeatureEnabled, hfind, hen, hffind]
        have hfnone : ∀ fe ∈ mo0.features, ¬(fe.name = fname) := by
          intro fe hfe heq
          have := List.find?_eq_none.mp hffind fe hfe
          simp [heq] at this
        constructor
        · rw [hL]
          constructor
          · intro hf
            exact absurd hf (by simp)
          · rintro ⟨mo, hmo, hname, _, fe, hfe, hfname, _⟩
            rw [huniq mo hmo hname] at hfe
            exact absurd hfname (hfnone fe hfe)
        · intro mo hmo hname hdis
          rw [huniq mo hmo hname, hen] at hdis
          exact absurd hdis (by simp)
      | some fe0 =>
        obtain ⟨hfe0, hfname0⟩ :=
          (find_key_eq_some_iff Feature.name mo0.features fname fe0 (h2 mo0 hmo0)).mp hffind
        have hL : isFeatureEnabled e mname fname = fe0.enabled := by
          simp [isFeatureEnabled, hfind, hen, hffind]
        constructor
        · rw [hL]
          constructor
          · intro hf
            exact ⟨mo0, hmo0, hname0, hen, fe0, hfe0, hfname0, hf⟩
          · rintro ⟨mo, hmo, hname, _, fe, hfe, hfname, hfen⟩
            rw [huniq mo hmo hname] at hfe
            have hfeq : fe = fe0 :=
              List.inj_on_of_nodup_map (h2 mo0 hmo0) hfe hfe0 (hfname.trans hfname0.symm)
            rw [hfeq] at hfen
            exact hfen
        · intro mo hmo hname hdis
          rw [huniq mo hmo hname, hen] at hdis
          exact absurd hdis (by simp)

/-- C3 witness: a disabled `analytics` module whose feature `x` is itself
enabled still yields `isFeatureEnabled = false`. -/
theorem c3_is_feature_enabled_iff_witness :
    (eModules.modules.map Module.name).Nodup
    ∧ isFeatureEnabled eModules "analytics" "x" = false :=
  ⟨by decide,
    (c3_is_feature_enabled_iff eModules "analytics" "x" (by decide) (by decide)).2
      modAnalytics (by decide) rfl rfl⟩

/-- C7 counterexample: with a negative recorded usage (reachable through
the public interface, see the C6 counterexample) and no quota entry at
all, `checkQuota` returns true — the claimed consequence "checkQuota is
false for any resource with no quota entry" fails. -/
theorem c7_no_quota_entry_cex :
    checkQuota eNegUsage "x" = true
    ∧ eNegUsage.quotas.find? (fun p => p.1 == "x") = none := by
  decide

/-- C7 (amended): `checkQuota` returns true exactly when
`usage[resource] < quotas[resource]` under strict less-than with absent
keys read as zero; consequently, for a resource with no quota entry it
returns false whenever the recorded usage is non-negative. -/
theorem c7_check_quota_iff (e : Entitlement) (r : String) :
    (checkQuota e r = true ↔ getQ e.usage r < getQ e.quotas r)
    ∧ (0 ≤ getQ e.usage r → e.quotas.find? (fun p => p.1 == r) = none →
        checkQuota e r = false) := by
  constructor
  · rw [checkQuota]
    exact decide_eq_true_iff
  · intro h0 hq
    have hq0 : getQ e.quotas r = 0 := by
      rw [getQ, hq]
    rw [checkQuota, hq0, decide_eq_false_iff_not, not_lt]
    exact h0

/-- C7 witness: zero recorded usage and no quota entry for `submissions`
gives `checkQuota = false`. -/
theorem c7_check_quota_iff_witness :
    0 ≤ getQ eZeroUsage.usage "submissions" ∧ checkQuota eZeroUsage "submissions" = false :=
  ⟨by decide, (c7_check_quota_iff eZeroUsage "submissions").2 (by decide) (by decide)⟩

/-- C9: `checkPermission` returns the store it was given — it performs no
write, so no entitlement's usage, quotas or audit changes — and repeating
the call against the resulting store returns the same decision. -/
theorem c9_check_permission_pure (s : List Entitlement) (tid ty mo : String)
    (f : Option String) :
    (checkPermission s tid ty mo f).2 = s
    ∧ (checkPermission ((checkPermission s tid ty mo f).2) tid ty mo f).1
        = (checkPermission s tid ty mo f).1 :=
  ⟨rfl, rfl⟩

/-- C10: `getExpiringSoon` returns exactly the active entitlements whose
expiry date lies in the half-open window `(now, now + days]`; an
entitlement with no expiry date is never returned. -/
theorem c10_expiring_soon_mem (s : List Entitlement) (now days : Int) (e : Entitlement) :
    e ∈ getExpiringSoon s now days
    ↔ e ∈ s ∧ e.isActive = true
        ∧ ∃ u, e.effectiveUntil = some u ∧ now < u ∧ u ≤ now + days := by
  rw [getExpiringSoon, List.mem_filter]
  cases h : e.effectiveUntil with
  | none => simp [h]
  | some u =>
    simp only [h, Bool.and_eq_true, decide_eq_true_eq, Option.some.injEq]
    constructor
    · rintro ⟨hs, ⟨hle, hlt⟩, hact⟩
      exact ⟨hs, hact, u, rfl, hlt, hle⟩
    · rintro ⟨hs, hact, u', hu', hlt, hle⟩
      subst hu'
      exact ⟨hs, ⟨hle, hlt⟩, hact⟩

/-- C5 counterexample: create followed by an update whose body carries
`audit: []` — two mutating operations through the public interface — ends
with a single audit entry, and the `created` entry written by the first
operation has been removed: `findByIdAndUpdate` spreads the request body,
so a patch may replace the audit array wholesale. -/
theorem c5_audit_overwritten_cex :
    (runOps (createdEntitlement bodyPlain "admin") [Op.update wipeAuditPatch "admin"]).audit.length = 1
    ∧ AuditEntry.mk "created" "admin" (AuditChanges.createdBody bodyPlain) "" ∉
        (runOps (createdEntitlement bodyPlain "admin") [Op.update wipeAuditPatch "admin"]).audit := by
  decide

/-- C5 (amended): starting from a freshly created entitlement, a sequence
of mutating operations (update, setModule, setFeature, setQuotas, rejected
recordUsage — each auditing in the state it runs in) in which no update
patch sets the `audit` field leaves the audit array equal to the `created`
entry followed by one entry per operation in call order; and the audit
array after any prefix of the sequence is a take-prefix of the final one,
so no earlier entry is ever mutated or removed. -/
theorem c5_audit_append_only (body : CreateBody) (u : String) (ops : List Op)
    (h1 : noAuditOverride ops = true)
    (h2 : mutatingTrace (createdEntitlement body u) ops = true) :
    (runOps (createdEntitlement body u) ops).audit
        = ⟨"created", u, AuditChanges.createdBody body, ""⟩
            :: auditTrace (createdEntitlement body u) ops
    ∧ (auditTrace (createdEntitlement body u) ops).length = ops.length
    ∧ ∀ n : Nat,
        (runOps (createdEntitlement body u) ops).audit.take
            ((runOps (createdEntitlement body u) (ops.take n)).audit.length)
          = (runOps (createdEntitlement body u) (ops.take n)).audit := by
  have hhead : (createdEntitlement body u).audit
      = [⟨"created", u, AuditChanges.createdBody body, ""⟩] := rfl
  refine ⟨?_, auditTrace_length _ _ h2, ?_⟩
  · rw [runOps_audit _ _ h1, hhead]
    rfl
  · intro n
    have hsplit : ops.take n ++ ops.drop n = ops := List.take_append_drop n ops
    have h1' : noAuditOverride (ops.take n) = true ∧ noAuditOverride (ops.drop n) = true := by
      rw [noAuditOverride, noAuditOverride, ← Bool.and_eq_true, ← List.all_append, hsplit]
      exact h1
    have hrun : runOps (createdEntitlement body u) ops
        = runOps (runOps (createdEntitlement body u) (ops.take n)) (ops.drop n) := by
      conv_lhs => rw [← hsplit]
      exact runOps_append _ _ _
    rw [hrun, runOps_audit _ _ h1'.2]
    exact List.take_left _ _

/-- C5 witness: a created entitlement followed by one setQuotas call has
the created entry plus a one-entry trace. -/
theorem c5_audit_append_only_witness :
    noAuditOverride opsOneQuota = true
    ∧ mutatingTrace (createdEntitlement bodyPlain "admin") opsOneQuota = true
    ∧ (auditTrace (createdEntitlement bodyPlain "admin") opsOneQuota).length
        = opsOneQuota.length :=
  ⟨by decide, by decide,
    (c5_audit_append_only bodyPlain "admin" opsOneQuota (by decide) (by decide)).2.1⟩

/-- C6 counterexample: from a valid state (usage 9 ≥ 0, quota 10), the
public usage endpoint with the caller-supplied amount -20 passes
`checkQuota` (9 < 10) and drives the counter to -11 < 0. -/
theorem c6_negative_amount_cex :
    usageOk eRace.usage = true
    ∧ getQ ((recordUsage eRace "submissions" (-20) "u").2).usage "submissions" = -11 := by
  decide

/-- C6 (amended): from a state whose usage counters are all non-negative,
any sequence of public mutating operations in which every `recordUsage`
amount is non-negative and no update patch supplies a negative usage value
keeps every usage counter non-negative after every operation of the
sequence. -/
theorem c6_usage_nonneg (e : Entitlement) (ops : List Op)
    (h1 : usageOk e.usage = true) (h2 : nonnegOps ops = true) :
    ∀ (n : Nat) (r : String), 0 ≤ getQ (runOps e (ops.take n)).usage r := by
  have key : ∀ (l : List Op) (e0 : Entitlement), usageOk e0.usage = true →
      nonnegOps l = true → usageOk (runOps e0 l).usage = true := by
    intro l
    induction l with
    | nil =>
      intro e0 he _
      exact he
    | cons op rest ih =>
      intro e0 he hl
      rw [nonnegOps, List.all_cons, Bool.and_eq_true] at hl
      exact ih _ (applyOp_usageOk e0 op he hl.1) hl.2
  intro n r
  refine usageOk_getQ _ (key (ops.take n) e h1 ?_) r
  rw [nonnegOps, List.all_eq_true] at h2 ⊢
  intro x hx
  exact h2 x (List.take_subset n ops hx)

/-- C6 witness: one unit increment then a quota patch, from quota 10 and
usage 9, keeps `submissions` usage at 10 ≥ 0. -/
theorem c6_usage_nonneg_witness :
    usageOk eRace.usage = true
    ∧ nonnegOps opsNonneg = true
    ∧ 0 ≤ getQ (runOps eRace (opsNonneg.take 2)).usage "submissions" :=
  ⟨by decide, by decide, c6_usage_nonneg eRace opsNonneg (by decide) (by decide) 2 "submissions"⟩

/-- C8: when the store already holds an entitlement for the same
`(tenantId, tenantType)` pair, `createEntitlement` fails — the unique
index rejects the save — with DuplicateTenant and the store is unchanged;
and creation preserves at-most-one-entitlement-per-pair. -/
theorem c8_duplicate_tenant (s : List Entitlement) (body : CreateBody) (u : String) :
    ((∃ e ∈ s, e.tenantId = body.tenantId ∧ e.tenantType = body.tenantType) →
      (createEntitlement s body u).1 = Except.error CreateError.duplicateTenant
      ∧ (createEntitlement s body u).2 = s)
    ∧ (uniquePairs s → uniquePairs (createEntitlement s body u).2) := by
  constructor
  · rintro ⟨e, he, hid, hty⟩
    have hany : s.any (fun x => x.tenantId == body.tenantId && x.tenantType == body.tenantType)
        = true := by
      rw [List.any_eq_true]
      exact ⟨e, he, by simp [hid, hty]⟩
    rw [createEntitlement, if_pos hany]
    exact ⟨rfl, rfl⟩
  · intro hp
    by_cases hany :
        s.any (fun x => x.tenantId == body.tenantId && x.tenantType == body.tenantType) = true
    · rw [createEntitlement, if_pos hany]
      exact hp
    · rw [createEntitlement, if_neg hany]
      have hall : ∀ x ∈ s, ¬(x.tenantId = body.tenantId ∧ x.tenantType = body.tenantType) := by
        intro x hx hcontra
        exact hany (List.any_eq_true.mpr ⟨x, hx, by simp [hcontra.1, hcontra.2]⟩)
      rw [uniquePairs, List.pairwise_append]
      refine ⟨hp, List.pairwise_singleton _ _, ?_⟩
      intro a ha b hb
      rw [List.mem_singleton] at hb
      subst hb
      exact hall a ha

/-- C8 witness: a store holding `eRace` rejects a second creation for
tenant pair ("t1", "business") and keeps the store intact. -/
theorem c8_duplicate_tenant_witness :
    (∃ e ∈ [eRace], e.tenantId = bodyDup.tenantId ∧ e.tenantType = bodyDup.tenantType)
    ∧ (createEntitlement [eRace] bodyDup "u").1 = Except.error CreateError.duplicateTenant
    ∧ (createEntitlement [eRace] bodyDup "u").2 = [eRace] := by
  refine ⟨⟨eRace, by decide, by decide, by decide⟩, ?_⟩
  exact (c8_duplicate_tenant [eRace] bodyDup "u").1 ⟨eRace, by decide, by decide, by decide⟩

end Keephy
